import Mathlib

/-!
# AlgoSearch: the client-side result pipeline of `Frontend/src/App.jsx`

A shallow embedding of the `App` component's state and of the functions that
change it (`handleSearch`, the filter effect, `loadMoreResults`, the render
parse), followed by theorems about them.

A JavaScript string is modelled as the list of its characters. The fragments
and the delimiter the component looks for are ASCII, so matching on characters
and matching on UTF-16 code units agree.
-/

namespace AlgoSearch

/-! ## Strings -/

/-- A JavaScript string, as the sequence of its characters. -/
abbrev Str := List Char

/-- The delimiter of `value.split("*")`. -/
def delimiter : Char := '*'

/-- `String.prototype.split` with a one-character separator: the segments
between the occurrences of the separator, in order. A string with `k`
occurrences has `k + 1` segments; the empty string has the one segment `""`. -/
def split (sep : Char) : Str → List Str
  | [] => [[]]
  | c :: cs =>
    if c = sep then [] :: split sep cs
    else
      match split sep cs with
      | [] => [[c]]
      | seg :: rest => (c :: seg) :: rest

/-- `String.prototype.includes`: `frag` occurs in `s` as a contiguous run. -/
def includes : Str → Str → Bool
  | [], frag => frag.isEmpty
  | c :: cs, frag => frag.isPrefixOf (c :: cs) || includes cs frag

/-- `const [link] = value.split("*")`: the first segment. -/
def linkOf (value : Str) : Str :=
  (split delimiter value).headD []

/-- `const [link, title] = value.split("*")`: the first segment and the second
one, which is `undefined` (here `none`) when the record has no delimiter. -/
def renderParse (value : Str) : Str × Option Str :=
  let parts := split delimiter value
  (parts.headD [], parts.get? 1)

/-! ## Platforms and the selection flags -/

/-- The three platforms of `platformConfig`. -/
inductive Platform
  | LeetCode
  | CodeForces
  | CodeChef
  deriving DecidableEq, Repr, Fintype

/-- The string literal each platform is recognised by in a link. -/
def Platform.fragment : Platform → Str
  | .LeetCode => "leetcode".toList
  | .CodeForces => "codeforces".toList
  | .CodeChef => "codechef".toList

/-- The three checkbox states `isLeetCodeSelected`, `isCodeForcesSelected` and
`isCodeChefSelected`. -/
structure Selection where
  isLeetCodeSelected : Bool
  isCodeForcesSelected : Bool
  isCodeChefSelected : Bool
  deriving DecidableEq, Repr

/-- The flag of one platform. -/
def Selection.flag (sel : Selection) : Platform → Bool
  | .LeetCode => sel.isLeetCodeSelected
  | .CodeForces => sel.isCodeForcesSelected
  | .CodeChef => sel.isCodeChefSelected

/-- The selection with the flag of `p` set to `b` and the other two kept. -/
def Selection.setFlag (sel : Selection) (p : Platform) (b : Bool) : Selection :=
  match p with
  | .LeetCode => { sel with isLeetCodeSelected := b }
  | .CodeForces => { sel with isCodeForcesSelected := b }
  | .CodeChef => { sel with isCodeChefSelected := b }

/-- The callback of `response.results.filter(...)` in the filter effect. -/
def filterPredicate (sel : Selection) (value : Str) : Bool :=
  let link := linkOf value
  (sel.isLeetCodeSelected && includes link "leetcode".toList) ||
  (sel.isCodeForcesSelected && includes link "codeforces".toList) ||
  (sel.isCodeChefSelected && includes link "codechef".toList)

/-- The value of `filtered` in the filter effect:
`response.results.filter(...)`. -/
def filtered (results : List Str) (sel : Selection) : List Str :=
  results.filter (filterPredicate sel)

/-- The platform label chosen when a displayed record is rendered:
`link.includes("leetcode") ? "LeetCode" : link.includes("codeforces") ?
"CodeForces" : "CodeChef"`. -/
def renderPlatform (value : Str) : Platform :=
  let link := (renderParse value).1
  if includes link "leetcode".toList then .LeetCode
  else if includes link "codeforces".toList then .CodeForces
  else .CodeChef

/-- `Array.prototype.slice(start, end)` for indices `0 ≤ start` and
`0 ≤ end`. -/
def slice (xs : List Str) (start stop : Nat) : List Str :=
  (xs.drop start).take (stop - start)

/-- The constant `resultsPerPage`. -/
def resultsPerPage : Nat := 10

/-! ## The component state and its transitions -/

/-- The decoded body of a search response, as far as the component reads it:
an object with a `results` array, or an object without that field. -/
inductive Payload
  | noResults
  | withResults (results : List Str)
  deriving DecidableEq, Repr

/-- What the callback `loadMoreResults` of one render has captured: the
values of `displayedResults.length` and `filteredResults` that this render
saw (the dependencies of its `useCallback`). -/
structure Closure where
  displayedLength : Nat
  filteredResults : List Str
  deriving DecidableEq, Repr

/-- The state cells of `App` (`useState`), together with what surrounds them:
`callback` is what the `loadMoreResults` of the latest render captured (the
function the intersection observer calls), `issued` counts the calls of
`handleSearch` so far (request `k` is the one sent by the `k`-th call) and
`outstanding` lists the requests whose promise has not settled yet. -/
structure AppState where
  query : Str
  response : Option Payload
  isLoading : Bool
  selection : Selection
  displayedResults : List Str
  filteredResults : List Str
  callback : Closure
  issued : Nat
  outstanding : List Nat
  deriving DecidableEq, Repr

/-- The state at mount: the initial values of the `useState` calls. -/
def initialState : AppState where
  query := []
  response := none
  isLoading := false
  selection := ⟨true, false, false⟩
  displayedResults := []
  filteredResults := []
  callback := ⟨0, []⟩
  issued := 0
  outstanding := []

/-- The effect with dependencies `[response, isLeetCodeSelected,
isCodeForcesSelected, isCodeChefSelected]`. The guard `!response?.results`
holds for `null` and for a response without a `results` field. -/
def filterEffect (s : AppState) : AppState :=
  match s.response with
  | some (.withResults results) =>
    let f := filtered results s.selection
    { s with filteredResults := f, displayedResults := slice f 0 resultsPerPage }
  | _ => { s with filteredResults := [] }

/-- The part of `handleSearch` before the `await`: the four setters, then the
request is sent. The filter effect runs afterwards when `response` changed,
that is when it was not `null` already. -/
def handleSearch (s : AppState) : AppState :=
  let s1 : AppState :=
    { s with
      response := none
      isLoading := true
      displayedResults := []
      filteredResults := []
      issued := s.issued + 1
      outstanding := s.outstanding ++ [s.issued + 1] }
  if s.response.isSome then filterEffect s1 else s1

/-- The continuation of `handleSearch` for request `id` when `fetch` and
`data.json()` succeed: `setResponse(outputList)`, `setIsLoading(false)`, and
the filter effect runs on the new `response`. -/
def fetchResolved (s : AppState) (id : Nat) (outputList : Payload) : AppState :=
  if id ∈ s.outstanding then
    filterEffect
      { s with
        response := some outputList
        isLoading := false
        outstanding := s.outstanding.erase id }
  else s

/-- The continuation of `handleSearch` for request `id` when the request
fails: the `catch` logs, the `finally` runs `setIsLoading(false)`. -/
def fetchFailed (s : AppState) (id : Nat) : AppState :=
  if id ∈ s.outstanding then
    { s with isLoading := false, outstanding := s.outstanding.erase id }
  else s

/-- The checkbox handler `onChange={() => setState(!state)}` of platform `p`,
followed by the filter effect, which depends on the flag. -/
def toggle (s : AppState) (p : Platform) : AppState :=
  filterEffect { s with selection := s.selection.setFlag p (!s.selection.flag p) }

/-- The callback `loadMoreResults` of a render, called in state `s`. The
guard and the bounds of the slice read `displayedResults.length` and
`filteredResults` as the render captured them; the updater
`prev => [...prev, ...nextBatch]` appends to the current `displayedResults`. -/
def loadMoreResults (callback : Closure) (s : AppState) : AppState :=
  if callback.displayedLength ≥ callback.filteredResults.length then s
  else
    let nextBatch :=
      slice callback.filteredResults callback.displayedLength
        (callback.displayedLength + resultsPerPage)
    { s with displayedResults := s.displayedResults ++ nextBatch }

/-- A render of the component: `useCallback` builds the `loadMoreResults` of
this render from the current `displayedResults.length` and `filteredResults`,
and the observer effect installs it. -/
def render (s : AppState) : AppState :=
  { s with callback := ⟨s.displayedResults.length, s.filteredResults⟩ }

/-- The input handler `handleInputChange`. -/
def handleInputChange (s : AppState) (value : Str) : AppState :=
  { s with query := value }

/-- The condition under which the sentinel element of the infinite scroll is
rendered: `displayedResults.length < filteredResults.length`. -/
def sentinelRendered (s : AppState) : Bool :=
  decide (s.displayedResults.length < s.filteredResults.length)

/-- What can happen to the mounted component. A render is an event of its
own: the state setters only schedule it, so the observer may call the
`loadMoreResults` of an earlier render before the next one has run. -/
inductive Event
  | inputChange (value : Str)
  | submit
  | resolved (id : Nat) (outputList : Payload)
  | failed (id : Nat)
  | toggled (p : Platform)
  | rendered
  | advance
  deriving DecidableEq, Repr

/-- One event applied to a state. -/
def step (s : AppState) : Event → AppState
  | .inputChange value => handleInputChange s value
  | .submit => handleSearch s
  | .resolved id outputList => fetchResolved s id outputList
  | .failed id => fetchFailed s id
  | .toggled p => toggle s p
  | .rendered => render s
  | .advance => loadMoreResults s.callback s

/-- The state after a sequence of events, oldest first. -/
def run (s : AppState) (events : List Event) : AppState :=
  events.foldl step s

/-- The states the component can be in: those some sequence of events leads
to from the state at mount. -/
def Reachable (s : AppState) : Prop :=
  ∃ events : List Event, run initialState events = s

/-! ## The specification's reading of the filter -/

/-- The text of a record before its first delimiter (the whole record when it
has none). -/
def beforeFirstDelimiter (value : Str) : Str :=
  value.takeWhile (fun c => c != delimiter)

/-- The text of a record after its first delimiter (empty when it has none). -/
def afterFirstDelimiter (value : Str) : Str :=
  (value.dropWhile (fun c => c != delimiter)).drop 1

/-- The specification's `classify`: the first of leetcode, codeforces,
codechef whose fragment occurs in the link, or nothing. -/
def classifySpec (link : Str) : Option Platform :=
  if Platform.LeetCode.fragment <:+: link then some .LeetCode
  else if Platform.CodeForces.fragment <:+: link then some .CodeForces
  else if Platform.CodeChef.fragment <:+: link then some .CodeChef
  else none

/-- The specification's `recompute`: the records whose classified platform
has its flag active, in their original order. -/
def recomputeSpec (rawResults : List Str) (sel : Selection) : List Str :=
  rawResults.filter fun value =>
    match classifySpec (beforeFirstDelimiter value) with
    | some p => sel.flag p
    | none => false

/-! ## Invariants of the reachable states -/

/-- Every displayed record, every filtered record and every record the
installed callback has captured has a link that contains the fragment of some
platform. -/
def LinksRecognised (s : AppState) : Prop :=
  ∀ value,
    value ∈ s.displayedResults ∨ value ∈ s.filteredResults ∨
      value ∈ s.callback.filteredResults →
    ∃ p : Platform, p.fragment <:+: beforeFirstDelimiter value

/-! ## Records, event sequences and states used as concrete inputs -/

/-- A record as the search endpoint emits them, on LeetCode. -/
def recordTwoSum : Str := "https://leetcode.com/p1*Two Sum".toList

/-- A record as the search endpoint emits them, on CodeForces. -/
def recordProblemB : Str := "https://codeforces.com/p2*B. Problem".toList

/-- A CodeForces record whose link also mentions leetcode. -/
def recordBlog : Str := "https://codeforces.com/blog/leetcode-style*Editorial".toList

/-- A record whose title contains the delimiter. -/
def recordStarTitle : Str := "https://codechef.com/p3*A*B Problem".toList

/-- A record that lacks the delimiter: a link without a title. -/
def recordNoTitle : Str := "https://leetcode.com/problems/two-sum".toList

/-- The malformed record of Scenario D. -/
def recordMalformed : Str := "no-delimiter-here".toList

/-- The 25 filtered records of Scenario C. -/
def records25 : List Str :=
  (List.range 25).map fun i =>
    "https://leetcode.com/p".toList ++ (Nat.repr i).toList ++ "*Problem".toList

/-- The events of Scenario C up to the first render of the reset window: one
search, answered with the 25 records. -/
def eventsScenarioC : List Event :=
  [.submit, .resolved 1 (.withResults records25), .rendered]

/-- The state of Scenario C after the filter effect and the render that
follows it: 25 filtered records, the first 10 displayed, and the callback of
that render installed. -/
def stateScenarioC : AppState := run initialState eventsScenarioC

/-- Scenario C with 15 records instead of 25. -/
def stateFifteen : AppState :=
  run initialState [.submit, .resolved 1 (.withResults (records25.take 15)), .rendered]

/-- Two searches are submitted, the first request is answered with one
LeetCode record, then the second request is answered with a body that has no
`results` field. -/
def eventsEarlyReturn : List Event :=
  [.submit, .submit, .resolved 1 (.withResults [recordTwoSum]), .resolved 2 .noResults]

/-- The state in which the second response of `eventsEarlyReturn` arrives,
with that response stored and the filter effect about to run. -/
def stateBeforeEffect : AppState :=
  { run initialState [.submit, .submit, .resolved 1 (.withResults [recordTwoSum])] with
    response := some .noResults }

/-- Two searches were submitted and neither request has been answered. -/
def stateTwoSubmits : AppState := run initialState [.submit, .submit]

/-! # Theorems -/

/-! ## Lemmas on `split` and `includes` -/

theorem split_eq_cons (sep : Char) (value : Str) :
    split sep value =
      value.takeWhile (fun c => c != sep) ::
        (if sep ∈ value then split sep ((value.dropWhile (fun c => c != sep)).drop 1)
         else []) := by
  induction value with
  | nil => simp [split]
  | cons c cs ih =>
    by_cases h : c = sep
    · subst h
      simp [split, List.takeWhile, List.dropWhile]
    · have h2 : ¬ sep = c := fun e => h e.symm
      have hne : (c != sep) = true := by simp [h]
      rw [split, if_neg h, ih]
      simp [List.takeWhile, List.dropWhile, hne, h2]

theorem linkOf_eq (value : Str) : linkOf value = value.takeWhile (fun c => c != delimiter) := by
  rw [linkOf, split_eq_cons]; rfl

theorem includes_iff (s frag : Str) : includes s frag = true ↔ frag <:+: s := by
  induction s with
  | nil => simp [includes, List.isEmpty_iff]
  | cons c cs ih =>
    rw [includes, Bool.or_eq_true, ih, List.infix_cons_iff, List.isPrefixOf_iff_prefix]

theorem filterPredicate_iff (sel : Selection) (value : Str) :
    filterPredicate sel value = true ↔
      ∃ p : Platform, sel.flag p = true ∧ p.fragment <:+: beforeFirstDelimiter value := by
  have hl : linkOf value = beforeFirstDelimiter value := linkOf_eq value
  simp only [filterPredicate, Bool.or_eq_true, Bool.and_eq_true, includes_iff, hl]
  constructor
  · rintro ((⟨h1, h2⟩ | ⟨h1, h2⟩) | ⟨h1, h2⟩)
    · exact ⟨.LeetCode, h1, h2⟩
    · exact ⟨.CodeForces, h1, h2⟩
    · exact ⟨.CodeChef, h1, h2⟩
  · rintro ⟨p, h1, h2⟩
    cases p
    · exact Or.inl (Or.inl ⟨h1, h2⟩)
    · exact Or.inl (Or.inr ⟨h1, h2⟩)
    · exact Or.inr ⟨h1, h2⟩

theorem value_eq_before_delimiter_after (value : Str) (h : delimiter ∈ value) :
    value = beforeFirstDelimiter value ++ delimiter :: afterFirstDelimiter value := by
  induction value with
  | nil => simp at h
  | cons c cs ih =>
    by_cases hc : c = delimiter
    · simp [beforeFirstDelimiter, afterFirstDelimiter, List.takeWhile, List.dropWhile, hc]
    · have hm : delimiter ∈ cs := by
        rcases List.mem_cons.1 h with e | e
        · exact absurd e.symm hc
        · exact e
      have hne : (c != delimiter) = true := by simp [hc]
      have := ih hm
      simp only [beforeFirstDelimiter, afterFirstDelimiter, List.takeWhile, List.dropWhile, hne,
        List.cons_append, List.cons.injEq, true_and] at this ⊢
      exact this

theorem renderParse_eq (value : Str) (h : delimiter ∈ value) :
    renderParse value =
      (beforeFirstDelimiter value, some (beforeFirstDelimiter (afterFirstDelimiter value))) := by
  have h2 := split_eq_cons delimiter (afterFirstDelimiter value)
  simp only [renderParse, beforeFirstDelimiter, afterFirstDelimiter] at h2 ⊢
  rw [split_eq_cons, if_pos h, h2]
  rfl

/-! ## C1: what the filter effect retains -/

/-- C1, counterexample: with only the CodeForces flag active, the filter
effect retains a record whose link contains both `codeforces` and `leetcode`,
although the first fragment found in the order leetcode, codeforces, codechef
is leetcode, whose flag is off; the classify-based reading retains nothing. -/
theorem filtered_ne_recomputeSpec :
    filtered [recordBlog] ⟨false, true, false⟩ = [recordBlog] ∧
    classifySpec (beforeFirstDelimiter recordBlog) = some Platform.LeetCode ∧
    recomputeSpec [recordBlog] ⟨false, true, false⟩ = [] ∧
    filtered [recordBlog] ⟨false, true, false⟩ ≠ recomputeSpec [recordBlog] ⟨false, true, false⟩ := by
  decide

/-- C1, amended: the filtered set is exactly the sublist of the raw records
(order and multiplicity kept) whose link, the text before the first `*`,
contains the fragment of at least one platform whose flag is active. It agrees
with the classify-based reading whenever no link contains the fragments of two
platforms, and on the records of Scenario A it is the LeetCode record alone. -/
theorem filtered_eq_active_fragment (results : List Str) (sel : Selection) :
    filtered results sel =
        results.filter (fun value =>
          decide (∃ p : Platform, sel.flag p = true ∧
            p.fragment <:+: beforeFirstDelimiter value)) ∧
    List.Sublist (filtered results sel) results ∧
    ((∀ value ∈ results, ∀ p q : Platform,
        p.fragment <:+: beforeFirstDelimiter value →
        q.fragment <:+: beforeFirstDelimiter value → p = q) →
      filtered results sel = recomputeSpec results sel) ∧
    filtered [recordTwoSum, recordProblemB] ⟨true, false, false⟩ = [recordTwoSum] := by
  refine ⟨?_, List.filter_sublist _, ?_, by decide⟩
  · apply List.filter_congr
    intro value _
    by_cases h : ∃ p : Platform, sel.flag p = true ∧ p.fragment <:+: beforeFirstDelimiter value
    · simp only [h, decide_True]; exact (filterPredicate_iff sel value).2 h
    · simp only [h, decide_False]
      exact Bool.eq_false_iff.2 (fun hp => h ((filterPredicate_iff sel value).1 hp))
  · intro huniq
    apply List.filter_congr
    intro value hv
    have hu := huniq value hv
    by_cases hkeep : filterPredicate sel value = true
    · obtain ⟨p, hp, hfrag⟩ := (filterPredicate_iff sel value).1 hkeep
      have hcl : classifySpec (beforeFirstDelimiter value) = some p := by
        unfold classifySpec
        by_cases h1 : Platform.LeetCode.fragment <:+: beforeFirstDelimiter value
        · rw [if_pos h1, hu _ _ hfrag h1]
        · rw [if_neg h1]
          by_cases h2 : Platform.CodeForces.fragment <:+: beforeFirstDelimiter value
          · rw [if_pos h2, hu _ _ hfrag h2]
          · rw [if_neg h2]
            by_cases h3 : Platform.CodeChef.fragment <:+: beforeFirstDelimiter value
            · rw [if_pos h3, hu _ _ hfrag h3]
            · cases p
              · exact absurd hfrag h1
              · exact absurd hfrag h2
              · exact absurd hfrag h3
      rw [hkeep, hcl]; exact hp.symm
    · have hkeep2 : filterPredicate sel value = false := Bool.eq_false_iff.2 hkeep
      rw [hkeep2]
      cases hcl : classifySpec (beforeFirstDelimiter value) with
      | none => rfl
      | some p =>
        have hfrag : p.fragment <:+: beforeFirstDelimiter value := by
          unfold classifySpec at hcl
          split_ifs at hcl with h1 h2 h3 <;> simp only [Option.some.injEq, reduceCtorEq] at hcl <;>
            subst hcl <;> assumption
        show false = sel.flag p
        cases hf : sel.flag p with
        | false => rfl
        | true => exact absurd ((filterPredicate_iff sel value).2 ⟨p, hf, hfrag⟩) hkeep

/-- C1, amended, at concrete records: no link there contains two fragments. -/
theorem filtered_eq_active_fragment_witness :
    (∀ value ∈ [recordTwoSum, recordProblemB], ∀ p q : Platform,
        p.fragment <:+: beforeFirstDelimiter value →
        q.fragment <:+: beforeFirstDelimiter value → p = q) ∧
    filtered [recordTwoSum, recordProblemB] ⟨false, true, false⟩ =
      recomputeSpec [recordTwoSum, recordProblemB] ⟨false, true, false⟩ :=
  ⟨by decide,
   (filtered_eq_active_fragment [recordTwoSum, recordProblemB] ⟨false, true, false⟩).2.2.1
     (by decide)⟩

/-! ## C2: the parse used when rendering -/

/-- C2, counterexample: for a record with two delimiters the title is the
text between them, not the whole remainder, and link, `*` and title do not
rebuild the record. -/
theorem renderParse_drops_after_second_delimiter :
    delimiter ∈ recordStarTitle ∧
    renderParse recordStarTitle = ("https://codechef.com/p3".toList, some "A".toList) ∧
    afterFirstDelimiter recordStarTitle = "A*B Problem".toList ∧
    ¬ ((renderParse recordStarTitle).2 = some (afterFirstDelimiter recordStarTitle)) ∧
    ¬ (∃ title, (renderParse recordStarTitle).2 = some title ∧
        (renderParse recordStarTitle).1 ++ delimiter :: title = recordStarTitle) := by
  refine ⟨by decide, by decide, by decide, by decide, ?_⟩
  rintro ⟨title, h1, h2⟩
  have h3 : (renderParse recordStarTitle).2 = some "A".toList := by decide
  rw [h3] at h1
  cases h1
  revert h2
  decide

/-- C2, amended: for every record containing a `*`, the link is the text
before the first `*` and the title is the text between the first `*` and the
next one (up to the end of the record when there is no other); link, `*` and
title form a prefix of the record, and form the whole record exactly when the
record contains a single `*`. -/
theorem renderParse_spec (value : Str) (h : delimiter ∈ value) :
    (renderParse value).1 = beforeFirstDelimiter value ∧
    (renderParse value).2 = some (beforeFirstDelimiter (afterFirstDelimiter value)) ∧
    (beforeFirstDelimiter value ++
        delimiter :: beforeFirstDelimiter (afterFirstDelimiter value)) <+: value ∧
    (beforeFirstDelimiter value ++
        delimiter :: beforeFirstDelimiter (afterFirstDelimiter value) = value ↔
      value.count delimiter = 1) := by
  have hv := value_eq_before_delimiter_after value h
  have ht : afterFirstDelimiter value =
      beforeFirstDelimiter (afterFirstDelimiter value) ++
        (afterFirstDelimiter value).dropWhile (fun c => c != delimiter) :=
    (List.takeWhile_append_dropWhile _ _).symm
  have hcount0 : (beforeFirstDelimiter value).count delimiter = 0 := by
    rw [List.count_eq_zero]
    intro hm
    have := List.mem_takeWhile_imp hm
    simp at this
  rw [renderParse_eq value h]
  refine ⟨rfl, rfl, ?_, ?_⟩
  · refine ⟨(afterFirstDelimiter value).dropWhile (fun c => c != delimiter), ?_⟩
    conv_rhs => rw [hv, ht]
    simp
  · constructor
    · intro e
      rw [← e, List.count_append, hcount0, List.count_cons_self, List.count_eq_zero.2]
      intro hm
      have := List.mem_takeWhile_imp hm
      simp at this
    · intro hc
      have hc2 : (afterFirstDelimiter value).count delimiter = 0 := by
        rw [hv, List.count_append, hcount0, List.count_cons_self] at hc
        omega
      have hall : ∀ c ∈ afterFirstDelimiter value, (c != delimiter) = true := by
        intro c hcm
        have hnot := List.count_eq_zero.1 hc2
        simp only [bne_iff_ne, ne_eq]
        rintro rfl
        exact hnot hcm
      have : beforeFirstDelimiter (afterFirstDelimiter value) = afterFirstDelimiter value := by
        unfold beforeFirstDelimiter
        exact List.takeWhile_eq_self_iff.2 hall
      rw [this]
      exact hv.symm

/-- C2, amended, at a record with one delimiter. -/
theorem renderParse_spec_witness :
    delimiter ∈ recordTwoSum ∧
    (renderParse recordTwoSum).1 = "https://leetcode.com/p1".toList ∧
    (renderParse recordTwoSum).2 = some "Two Sum".toList :=
  ⟨by decide,
   (renderParse_spec recordTwoSum (by decide)).1.trans (by decide),
   (renderParse_spec recordTwoSum (by decide)).2.1.trans (by decide)⟩

/-! ## C7: switching one flag -/

theorem flag_setFlag (sel : Selection) (p q : Platform) (b : Bool) :
    (sel.setFlag p b).flag q = if q = p then b else sel.flag q := by
  cases p <;> cases q <;> simp [Selection.setFlag, Selection.flag]

/-- C7, counterexample: switching the CodeForces flag on adds a record whose
link contains `codeforces`, but whose first fragment in the order leetcode,
codeforces, codechef is leetcode (the label it is rendered with). -/
theorem filtered_adds_record_of_other_platform :
    recordBlog ∈ filtered [recordBlog] (Selection.setFlag ⟨false, false, false⟩ .CodeForces true) ∧
    recordBlog ∉ filtered [recordBlog] (Selection.setFlag ⟨false, false, false⟩ .CodeForces false) ∧
    classifySpec (beforeFirstDelimiter recordBlog) ≠ some Platform.CodeForces ∧
    renderPlatform recordBlog ≠ Platform.CodeForces := by
  decide

/-- C7, amended: the filtered set computed with the flag of `p` off is a
sublist of the one computed with it on (other flags equal), and every record
present in the latter but absent from the former has a link that contains the
fragment of `p` and the fragment of no other platform whose flag is active;
`p` need not be the first matching fragment of that link. -/
theorem filtered_setFlag_mono (results : List Str) (sel : Selection) (p : Platform) :
    List.Sublist (filtered results (sel.setFlag p false)) (filtered results (sel.setFlag p true)) ∧
    ∀ value ∈ filtered results (sel.setFlag p true),
      value ∉ filtered results (sel.setFlag p false) →
        p.fragment <:+: beforeFirstDelimiter value ∧
        ∀ q : Platform, q ≠ p → sel.flag q = true →
          ¬ q.fragment <:+: beforeFirstDelimiter value := by
  constructor
  · apply List.monotone_filter_right
    intro value hv
    obtain ⟨q, hq, hfrag⟩ := (filterPredicate_iff _ value).1 hv
    refine (filterPredicate_iff _ value).2 ⟨q, ?_, hfrag⟩
    by_cases h : q = p
    · rw [flag_setFlag, if_pos h] at hq
      exact absurd hq (by simp)
    · rw [flag_setFlag, if_neg h] at hq
      rw [flag_setFlag, if_neg h]
      exact hq
  · intro value hon hoff
    have hmem : value ∈ results := (List.mem_filter.1 hon).1
    have hon2 : filterPredicate (sel.setFlag p true) value = true := (List.mem_filter.1 hon).2
    have hoff2 : ¬ filterPredicate (sel.setFlag p false) value = true :=
      fun h => hoff (List.mem_filter.2 ⟨hmem, h⟩)
    have hother : ∀ q : Platform, q ≠ p → sel.flag q = true →
        ¬ q.fragment <:+: beforeFirstDelimiter value := by
      intro q hqp hq hfrag
      apply hoff2
      refine (filterPredicate_iff _ value).2 ⟨q, ?_, hfrag⟩
      rw [flag_setFlag, if_neg hqp]; exact hq
    refine ⟨?_, hother⟩
    obtain ⟨q, hq, hfrag⟩ := (filterPredicate_iff _ value).1 hon2
    by_cases hqp : q = p
    · exact hqp ▸ hfrag
    · rw [flag_setFlag, if_neg hqp] at hq
      exact absurd hfrag (hother q hqp hq)

/-- C7, amended, at the records of Scenario A and the LeetCode flag. -/
theorem filtered_setFlag_mono_witness :
    recordTwoSum ∈ filtered [recordTwoSum, recordProblemB]
      (Selection.setFlag ⟨false, false, false⟩ .LeetCode true) ∧
    recordTwoSum ∉ filtered [recordTwoSum, recordProblemB]
      (Selection.setFlag ⟨false, false, false⟩ .LeetCode false) ∧
    Platform.LeetCode.fragment <:+: beforeFirstDelimiter recordTwoSum :=
  ⟨by decide, by decide,
   ((filtered_setFlag_mono [recordTwoSum, recordProblemB] ⟨false, false, false⟩ .LeetCode).2
      recordTwoSum (by decide) (by decide)).1⟩

/-! ## C8: records without a delimiter -/

/-- C8, counterexample: a record without `*` whose text contains `leetcode`
is retained when the LeetCode flag is active, so removing the delimiter-less
records changes the filtered set. -/
theorem filtered_keeps_delimiterless_record :
    delimiter ∉ recordNoTitle ∧
    filtered [recordNoTitle] ⟨true, false, false⟩ = [recordNoTitle] ∧
    filtered ([recordNoTitle].filter (fun value => decide (delimiter ∈ value)))
      ⟨true, false, false⟩ = [] ∧
    filtered [recordNoTitle] ⟨true, false, false⟩ ≠
      filtered ([recordNoTitle].filter (fun value => decide (delimiter ∈ value)))
        ⟨true, false, false⟩ := by
  decide

/-- C8, amended: a record that lacks the `*` delimiter is read as a link
without a title; it is retained exactly when the whole record contains the
fragment of a platform whose flag is active, and skipped otherwise. So the
filtered set equals the one computed from the list with every delimiter-less
record that contains none of the fragments leetcode, codeforces, codechef
removed, and the malformed record of Scenario D leaves the well-formed record
next to it in place. -/
theorem filtered_delimiterless (results : List Str) (sel : Selection) :
    (∀ value : Str, delimiter ∉ value →
      (filterPredicate sel value = true ↔
        ∃ p : Platform, sel.flag p = true ∧ p.fragment <:+: value)) ∧
    filtered results sel =
      filtered (results.filter (fun value =>
        decide (delimiter ∈ value ∨ ∃ p : Platform, p.fragment <:+: value))) sel ∧
    filtered [recordMalformed, recordTwoSum] ⟨true, false, false⟩ = [recordTwoSum] := by
  refine ⟨?_, ?_, by decide⟩
  · intro value hv
    have hb : beforeFirstDelimiter value = value := by
      unfold beforeFirstDelimiter
      apply List.takeWhile_eq_self_iff.2
      intro c hc
      simp only [bne_iff_ne, ne_eq]
      rintro rfl
      exact hv hc
    rw [filterPredicate_iff, hb]
  · unfold filtered
    rw [List.filter_filter]
    apply List.filter_congr
    intro value _
    by_cases hk : filterPredicate sel value = true
    · obtain ⟨p, _, hfrag⟩ := (filterPredicate_iff sel value).1 hk
      have hin : p.fragment <:+: value :=
        List.IsInfix.trans hfrag (List.takeWhile_prefix _).isInfix
      have : (delimiter ∈ value ∨ ∃ p : Platform, p.fragment <:+: value) := Or.inr ⟨p, hin⟩
      simp [hk, this]
    · have hk2 : filterPredicate sel value = false := Bool.eq_false_iff.2 hk
      simp [hk2]

/-- C8, amended, at the malformed record of Scenario D. -/
theorem filtered_delimiterless_witness :
    delimiter ∉ recordMalformed ∧
    ¬ (filterPredicate ⟨true, true, true⟩ recordMalformed = true) :=
  ⟨by decide, fun h => by
    have h2 := ((filtered_delimiterless [] ⟨true, true, true⟩).1 recordMalformed (by decide)).1 h
    revert h2
    decide⟩

/-! ## C4: one more page -/

theorem slice_zero (xs : List Str) (n : Nat) : slice xs 0 n = xs.take n := by
  simp [slice]

theorem take_min_length (xs : List Str) (n : Nat) : xs.take (min n xs.length) = xs.take n := by
  rw [List.take_eq_take]; simp

theorem loadMoreResults_filteredResults (callback : Closure) (s : AppState) :
    (loadMoreResults callback s).filteredResults = s.filteredResults ∧
    (loadMoreResults callback s).callback = s.callback := by
  unfold loadMoreResults
  split_ifs <;> exact ⟨rfl, rfl⟩

theorem loadMoreResults_take (s : AppState) (n : Nat)
    (h : s.displayedResults = s.filteredResults.take n) :
    (loadMoreResults ⟨s.displayedResults.length, s.filteredResults⟩ s).displayedResults =
      s.filteredResults.take (n + resultsPerPage) := by
  unfold loadMoreResults
  by_cases hge : s.displayedResults.length ≥ s.filteredResults.length
  · rw [if_pos hge]
    have hlen : s.filteredResults.length ≤ n := by
      rw [h, List.length_take] at hge
      omega
    rw [h, List.take_of_length_le hlen, List.take_of_length_le (by omega)]
  · rw [if_neg hge]
    have hlen : s.displayedResults.length = n := by
      rw [h, List.length_take] at hge ⊢
      omega
    simp only [slice, hlen, Nat.add_sub_cancel_left]
    rw [h, List.take_add]

theorem advance_after_render (s : AppState) (n : Nat)
    (h : s.displayedResults = s.filteredResults.take n) :
    (step (step s .rendered) .advance).displayedResults =
      s.filteredResults.take (n + resultsPerPage) ∧
    (step (step s .rendered) .advance).filteredResults = s.filteredResults :=
  ⟨loadMoreResults_take (render s) n h, (loadMoreResults_filteredResults _ (render s)).1⟩

/-- C4, counterexample: in Scenario C the callback of the render that showed
10 of 25 records is called twice before the next render. After the first call
the displayed results are the prefix of length 20; the second call appends the
records 10 to 19 again, so 30 records are displayed, which is no prefix of the
25 filtered ones. With 15 records the first call displays all 15 and the
second call still changes the state, to 20 displayed records. -/
theorem loadMoreResults_same_callback_twice :
    (run stateScenarioC [.advance]).displayedResults =
      (run stateScenarioC [.advance]).filteredResults.take 20 ∧
    (run stateScenarioC [.advance]).filteredResults.length = 25 ∧
    (step (run stateScenarioC [.advance]) .advance).displayedResults.length = 30 ∧
    (step (run stateScenarioC [.advance]) .advance).displayedResults ≠
      (run stateScenarioC [.advance]).filteredResults.take
        (min (20 + 10) (run stateScenarioC [.advance]).filteredResults.length) ∧
    (run stateFifteen [.advance]).displayedResults =
      (run stateFifteen [.advance]).filteredResults.take 15 ∧
    (run stateFifteen [.advance]).filteredResults.length = 15 ∧
    (step (run stateFifteen [.advance]) .advance).displayedResults.length = 20 ∧
    step (run stateFifteen [.advance]) .advance ≠ run stateFifteen [.advance] := by
  decide

/-- C4, amended: when `displayedResults` is the prefix of `filteredResults` of
length `n` and the installed `loadMoreResults` is the one of a render of this
state (it captured the current `displayedResults.length` and
`filteredResults`), one advance leaves `filteredResults` as it is and makes
`displayedResults` the prefix of length `min (n + 10) |filteredResults|`; the
state does not change at all when `n = |filteredResults|`; and from a reset
window over 25 filtered items, with a render after each advance, the
successive lengths are 10, 20, 25, 25. -/
theorem loadMoreResults_spec (s : AppState) (n : Nat)
    (h : s.displayedResults = s.filteredResults.take n)
    (hc : s.callback = ⟨s.displayedResults.length, s.filteredResults⟩) :
    (step s .advance).displayedResults =
      s.filteredResults.take (min (n + 10) s.filteredResults.length) ∧
    (step s .advance).filteredResults = s.filteredResults ∧
    (n = s.filteredResults.length → step s .advance = s) ∧
    (s.filteredResults.length = 25 → n = 10 →
      s.displayedResults.length = 10 ∧
      (run s [.advance]).displayedResults.length = 20 ∧
      (run s [.advance, .rendered, .advance]).displayedResults.length = 25 ∧
      (run s [.advance, .rendered, .advance, .rendered, .advance]).displayedResults.length
        = 25 ∧
      sentinelRendered (run s [.advance, .rendered, .advance]) = false) := by
  have hstep : step s .advance =
      loadMoreResults ⟨s.displayedResults.length, s.filteredResults⟩ s := by
    show loadMoreResults s.callback s = _
    rw [hc]
  have h1 : (step s .advance).displayedResults = s.filteredResults.take (n + resultsPerPage) := by
    rw [hstep]; exact loadMoreResults_take s n h
  have hf1 : (step s .advance).filteredResults = s.filteredResults := by
    rw [hstep]; exact (loadMoreResults_filteredResults _ s).1
  refine ⟨?_, hf1, ?_, ?_⟩
  · rw [take_min_length]; exact h1
  · intro hn
    rw [hstep]
    unfold loadMoreResults
    rw [if_pos]
    show s.displayedResults.length ≥ s.filteredResults.length
    rw [h, List.length_take, hn]
    simp
  · intro h25 hn
    have h2 := advance_after_render (step s .advance) (n + resultsPerPage) (by rw [h1, hf1])
    rw [hf1] at h2
    have h3 := advance_after_render (step (step (step s .advance) .rendered) .advance)
      (n + resultsPerPage + resultsPerPage) (by rw [h2.1, h2.2])
    rw [h2.2] at h3
    have e1 : run s [.advance] = step s .advance := rfl
    have e2 : run s [.advance, .rendered, .advance] =
        step (step (step s .advance) .rendered) .advance := rfl
    have e3 : run s [.advance, .rendered, .advance, .rendered, .advance] =
        step (step (step (step (step s .advance) .rendered) .advance) .rendered) .advance := rfl
    rw [e1, e2, e3]
    simp only [sentinelRendered, h, h1, h2.1, h2.2, h3.1, List.length_take, h25, hn,
      resultsPerPage]
    decide

/-- C4, amended, at Scenario C: 10, then 20, 25 and 25 displayed records when
a render follows each advance. -/
theorem loadMoreResults_spec_witness :
    stateScenarioC.displayedResults = stateScenarioC.filteredResults.take 10 ∧
    stateScenarioC.callback =
      ⟨stateScenarioC.displayedResults.length, stateScenarioC.filteredResults⟩ ∧
    stateScenarioC.filteredResults.length = 25 ∧
    (run stateScenarioC [.advance]).displayedResults.length = 20 ∧
    (run stateScenarioC [.advance, .rendered, .advance]).displayedResults.length = 25 ∧
    (run stateScenarioC
      [.advance, .rendered, .advance, .rendered, .advance]).displayedResults.length = 25 :=
  ⟨by decide, by decide, by decide,
   ((loadMoreResults_spec stateScenarioC 10 (by decide) (by decide)).2.2.2
      (by decide) rfl).2.1,
   ((loadMoreResults_spec stateScenarioC 10 (by decide) (by decide)).2.2.2
      (by decide) rfl).2.2.1,
   ((loadMoreResults_spec stateScenarioC 10 (by decide) (by decide)).2.2.2
      (by decide) rfl).2.2.2.1⟩

/-! ## C3, C5, C9: the branch of the filter effect that returns early -/

theorem filterEffect_withResults (s : AppState) (results : List Str)
    (h : s.response = some (.withResults results)) :
    (filterEffect s).filteredResults = filtered results s.selection ∧
    (filterEffect s).displayedResults =
      (filtered results s.selection).take (min 10 (filtered results s.selection).length) := by
  unfold filterEffect
  rw [h]
  simp only [slice_zero, resultsPerPage, take_min_length, and_self]

theorem filterEffect_withoutResults (s : AppState)
    (h : s.response = none ∨ s.response = some .noResults) :
    (filterEffect s).filteredResults = [] ∧
    (filterEffect s).displayedResults = s.displayedResults := by
  unfold filterEffect
  rcases h with h | h <;> rw [h] <;> exact ⟨rfl, rfl⟩

/-- C3, the code at the failing input: after `eventsEarlyReturn` the filter
effect has emptied `filteredResults` through its early return and has left
the record of the first request in `displayedResults`, so one record is
displayed while none is filtered. -/
theorem displayed_exceeds_filtered :
    (run initialState eventsEarlyReturn).response = some .noResults ∧
    (run initialState eventsEarlyReturn).displayedResults = [recordTwoSum] ∧
    (run initialState eventsEarlyReturn).filteredResults = [] ∧
    ¬ ((run initialState eventsEarlyReturn).displayedResults.length ≤
        (run initialState eventsEarlyReturn).filteredResults.length) := by
  decide

/-- C5, the code at the failing input: the filter effect runs on a response
without a `results` field while one record is displayed; the new filtered set
is empty, and the displayed record stays instead of the window being reset to
the first `min 10 0 = 0` items. -/
theorem filterEffect_keeps_displayed :
    stateBeforeEffect.displayedResults = [recordTwoSum] ∧
    (filterEffect stateBeforeEffect).filteredResults = [] ∧
    (filterEffect stateBeforeEffect).displayedResults = [recordTwoSum] ∧
    (filterEffect stateBeforeEffect).displayedResults ≠
      (filterEffect stateBeforeEffect).filteredResults.take
        (min 10 (filterEffect stateBeforeEffect).filteredResults.length) := by
  decide

/-- C9, the code at the failing input: after `eventsEarlyReturn` the LeetCode
flag is switched off, so all three flags are false, and the filter effect
runs on the response without a `results` field; the filtered set is empty and
no sentinel is rendered, but the displayed window still holds one record. -/
theorem all_flags_off_keeps_displayed :
    (run initialState (eventsEarlyReturn ++ [.toggled .LeetCode])).selection =
      ⟨false, false, false⟩ ∧
    (run initialState (eventsEarlyReturn ++ [.toggled .LeetCode])).filteredResults = [] ∧
    sentinelRendered (run initialState (eventsEarlyReturn ++ [.toggled .LeetCode])) = false ∧
    (run initialState (eventsEarlyReturn ++ [.toggled .LeetCode])).displayedResults =
      [recordTwoSum] ∧
    (run initialState (eventsEarlyReturn ++ [.toggled .LeetCode])).displayedResults ≠ [] := by
  decide

/-! ## C6: a response that arrives after a newer search was submitted -/

/-- C6, counterexample: request 1 is superseded by request 2, and its
response, arriving afterwards, replaces the raw response and fills the
filtered and the displayed results. -/
theorem superseded_response_updates_state :
    stateTwoSubmits.issued = 2 ∧
    stateTwoSubmits.outstanding = [1, 2] ∧
    stateTwoSubmits.response = none ∧
    stateTwoSubmits.filteredResults = [] ∧
    stateTwoSubmits.displayedResults = [] ∧
    (step stateTwoSubmits (.resolved 1 (.withResults [recordTwoSum]))).response =
      some (.withResults [recordTwoSum]) ∧
    (step stateTwoSubmits (.resolved 1 (.withResults [recordTwoSum]))).filteredResults =
      [recordTwoSum] ∧
    (step stateTwoSubmits (.resolved 1 (.withResults [recordTwoSum]))).displayedResults =
      [recordTwoSum] := by
  decide

/-- C6, amended: the response of any request that is still outstanding,
superseded or not, updates the session state when it arrives: it becomes the
raw response and the filter effect recomputes from it (for a results list, the
filtered results are its filter under the current selection and the displayed
results their first 10 items; without a results field the filtered results
are empty), and the outcome does not depend on which request it answers. Only
a failed request leaves the raw response, the filtered results and the
displayed results unchanged. -/
theorem fetchResolved_any_request (s : AppState) (id : Nat) (outputList : Payload)
    (h : id ∈ s.outstanding) :
    (fetchResolved s id outputList).response = some outputList ∧
    (∀ results, outputList = .withResults results →
      (fetchResolved s id outputList).filteredResults = filtered results s.selection ∧
      (fetchResolved s id outputList).displayedResults =
        (filtered results s.selection).take 10) ∧
    (outputList = .noResults → (fetchResolved s id outputList).filteredResults = []) ∧
    (∀ other ∈ s.outstanding,
      (fetchResolved s other outputList).response = (fetchResolved s id outputList).response ∧
      (fetchResolved s other outputList).filteredResults =
        (fetchResolved s id outputList).filteredResults ∧
      (fetchResolved s other outputList).displayedResults =
        (fetchResolved s id outputList).displayedResults) ∧
    ((fetchFailed s id).response = s.response ∧
      (fetchFailed s id).filteredResults = s.filteredResults ∧
      (fetchFailed s id).displayedResults = s.displayedResults) := by
  refine ⟨?_, ?_, ?_, ?_, ?_⟩
  · unfold fetchResolved filterEffect
    rw [if_pos h]
    cases outputList <;> rfl
  · rintro results rfl
    unfold fetchResolved filterEffect
    rw [if_pos h]
    exact ⟨rfl, slice_zero _ _⟩
  · rintro rfl
    unfold fetchResolved filterEffect
    rw [if_pos h]
  · intro other ho
    unfold fetchResolved filterEffect
    rw [if_pos h, if_pos ho]
    cases outputList <;> exact ⟨rfl, rfl, rfl⟩
  · unfold fetchFailed
    rw [if_pos h]
    exact ⟨rfl, rfl, rfl⟩

/-- C6, amended, at the superseded request 1 after two submits. -/
theorem fetchResolved_any_request_witness :
    1 ∈ stateTwoSubmits.outstanding ∧
    (fetchResolved stateTwoSubmits 1 (.withResults [recordTwoSum])).response =
      some (.withResults [recordTwoSum]) :=
  ⟨by decide,
   (fetchResolved_any_request stateTwoSubmits 1 (.withResults [recordTwoSum]) (by decide)).1⟩

/-! ## C10: the platform label of a displayed record -/

theorem linksRecognised_filterEffect (s : AppState) (h : LinksRecognised s) :
    LinksRecognised (filterEffect s) := by
  have hfil : ∀ results sel value, value ∈ filtered results sel →
      ∃ p : Platform, p.fragment <:+: beforeFirstDelimiter value := by
    intro results sel value hv
    obtain ⟨p, _, hp⟩ := (filterPredicate_iff sel value).1 (List.mem_filter.1 hv).2
    exact ⟨p, hp⟩
  have hdisp : ∀ value, value ∈ s.displayedResults →
      ∃ p : Platform, p.fragment <:+: beforeFirstDelimiter value :=
    fun value hv => h value (Or.inl hv)
  have hcb : ∀ value, value ∈ s.callback.filteredResults →
      ∃ p : Platform, p.fragment <:+: beforeFirstDelimiter value :=
    fun value hv => h value (Or.inr (Or.inr hv))
  unfold filterEffect
  cases hr : s.response with
  | none =>
    rintro value (hv | hv | hv)
    · exact hdisp value hv
    · simp at hv
    · exact hcb value hv
  | some payload =>
    cases payload with
    | noResults =>
      rintro value (hv | hv | hv)
      · exact hdisp value hv
      · simp at hv
      · exact hcb value hv
    | withResults results =>
      rintro value (hv | hv | hv)
      · exact hfil results s.selection value (List.mem_of_mem_take hv)
      · exact hfil results s.selection value hv
      · exact hcb value hv

theorem linksRecognised_step (s : AppState) (e : Event) (h : LinksRecognised s) :
    LinksRecognised (step s e) := by
  cases e with
  | inputChange value => exact h
  | submit =>
    show LinksRecognised (handleSearch s)
    have hempty : LinksRecognised
        { s with
          response := none
          isLoading := true
          displayedResults := []
          filteredResults := []
          issued := s.issued + 1
          outstanding := s.outstanding ++ [s.issued + 1] } := by
      rintro value (hv | hv | hv)
      · simp at hv
      · simp at hv
      · exact h value (Or.inr (Or.inr hv))
    unfold handleSearch
    split_ifs
    · exact linksRecognised_filterEffect _ hempty
    · exact hempty
  | resolved id outputList =>
    show LinksRecognised (fetchResolved s id outputList)
    unfold fetchResolved
    split_ifs
    · exact linksRecognised_filterEffect _ h
    · exact h
  | failed id =>
    show LinksRecognised (fetchFailed s id)
    unfold fetchFailed
    split_ifs
    · exact h
    · exact h
  | toggled p => exact linksRecognised_filterEffect _ h
  | rendered =>
    rintro value (hv | hv | hv)
    · exact h value (Or.inl hv)
    · exact h value (Or.inr (Or.inl hv))
    · exact h value (Or.inr (Or.inl hv))
  | advance =>
    show LinksRecognised (loadMoreResults s.callback s)
    unfold loadMoreResults
    split_ifs
    · exact h
    · rintro value (hv | hv | hv)
      · rcases List.mem_append.1 hv with hd | hn
        · exact h value (Or.inl hd)
        · exact h value
            (Or.inr (Or.inr (List.mem_of_mem_drop (List.mem_of_mem_take hn))))
      · exact h value (Or.inr (Or.inl hv))
      · exact h value (Or.inr (Or.inr hv))

theorem linksRecognised_run (events : List Event) (s : AppState) (h : LinksRecognised s) :
    LinksRecognised (run s events) := by
  induction events generalizing s with
  | nil => exact h
  | cons e es ih => exact ih (step s e) (linksRecognised_step s e h)

theorem renderParse_fst (value : Str) : (renderParse value).1 = beforeFirstDelimiter value :=
  linkOf_eq value

/-- C10: in every reachable state, the link of every displayed record (the
text before its first `*`) contains at least one of the fragments leetcode,
codeforces, codechef; so the platform chosen at render is one whose fragment
occurs in the link, and the final `CodeChef` branch is only taken for links
that contain `codechef`. -/
theorem displayed_link_recognised (s : AppState) (hs : Reachable s) (value : Str)
    (hv : value ∈ s.displayedResults) :
    (renderParse value).1 = beforeFirstDelimiter value ∧
    (∃ p : Platform, p.fragment <:+: (renderParse value).1) ∧
    (renderPlatform value).fragment <:+: (renderParse value).1 ∧
    (renderPlatform value = .CodeChef →
      "codechef".toList <:+: (renderParse value).1) := by
  obtain ⟨events, rfl⟩ := hs
  have hinv : LinksRecognised (run initialState events) :=
    linksRecognised_run events initialState (by
      rintro value (hv | hv | hv) <;> simp [initialState] at hv)
  obtain ⟨p, hp⟩ := hinv value (Or.inl hv)
  rw [← renderParse_fst] at hp
  have hlabel : (renderPlatform value).fragment <:+: (renderParse value).1 := by
    unfold renderPlatform
    simp only
    by_cases h1 : includes (renderParse value).1 "leetcode".toList = true
    · rw [if_pos h1]; exact (includes_iff _ _).1 h1
    · rw [if_neg h1]
      by_cases h2 : includes (renderParse value).1 "codeforces".toList = true
      · rw [if_pos h2]; exact (includes_iff _ _).1 h2
      · rw [if_neg h2]
        cases p
        · exact absurd ((includes_iff _ _).2 hp) h1
        · exact absurd ((includes_iff _ _).2 hp) h2
        · exact hp
  refine ⟨renderParse_fst value, ⟨p, hp⟩, hlabel, ?_⟩
  intro hcc
  rw [hcc] at hlabel
  exact hlabel

/-- C10 at the state after one answered search. -/
theorem displayed_link_recognised_witness :
    Reachable (run initialState [.submit, .resolved 1 (.withResults [recordTwoSum])]) ∧
    recordTwoSum ∈
      (run initialState [.submit, .resolved 1 (.withResults [recordTwoSum])]).displayedResults ∧
    (renderPlatform recordTwoSum).fragment <:+: (renderParse recordTwoSum).1 :=
  ⟨⟨_, rfl⟩, by decide,
   (displayed_link_recognised
      (run initialState [.submit, .resolved 1 (.withResults [recordTwoSum])]) ⟨_, rfl⟩
      recordTwoSum (by decide)).2.2.1⟩

end AlgoSearch
